import Mathlib

/-!
Verification development for the `rss_py_tg` repository (`src/rss_crawler.py`).

The crawler's data is modelled shallowly:
* Python `set` objects are modelled as duplicate-free `List String` values built
  with `addUnique` (insertion-ordered; only membership and cardinality matter).
* The regular-expression patterns of `_extract_s_links` / `_extract_links` are
  modelled by the `RE` syntax tree together with a prioritized backtracking
  matcher (`msplits`) and a Python-style `re.findall` scan (`findAll`).
* File contents are lists of lines; the retry loop of `_crawl_single_feed` is
  modelled with an explicit gas parameter equal to the remaining attempt budget.
-/

namespace RssCrawler

/-- Python `set.add`: append an element to a duplicate-free list unless present. -/
def addUnique (l : List String) (x : String) : List String :=
  if x ∈ l then l else l ++ [x]

theorem mem_addUnique {l : List String} {x y : String} :
    y ∈ addUnique l x ↔ y ∈ l ∨ y = x := by
  unfold addUnique
  by_cases h : x ∈ l
  · simp only [if_pos h]
    constructor
    · exact Or.inl
    · rintro (hy | rfl)
      · exact hy
      · exact h
  · simp [if_neg h]

theorem nodup_addUnique {l : List String} (h : l.Nodup) (x : String) :
    (addUnique l x).Nodup := by
  unfold addUnique
  by_cases hx : x ∈ l
  · simpa [if_pos hx]
  · simp only [if_neg hx]
    simpa [List.nodup_append] using ⟨h, hx⟩

theorem self_mem_addUnique (l : List String) (x : String) : x ∈ addUnique l x := by
  rw [mem_addUnique]
  exact Or.inr rfl

theorem mem_addUnique_of_mem {l : List String} {y : String} (h : y ∈ l) (x : String) :
    y ∈ addUnique l x := by
  rw [mem_addUnique]
  exact Or.inl h

/-- Python set union from an iterable (`set.update` / repeated `set.add`). -/
def addAllFrom (acc : List String) (ls : List String) : List String :=
  ls.foldl addUnique acc

theorem mem_addAllFrom {acc ls : List String} {y : String} :
    y ∈ addAllFrom acc ls ↔ y ∈ acc ∨ y ∈ ls := by
  induction ls generalizing acc with
  | nil => simp [addAllFrom]
  | cons a t ih =>
    simp only [addAllFrom, List.foldl_cons] at *
    rw [ih]
    rw [mem_addUnique]
    constructor
    · rintro (⟨hy | rfl⟩ | hy)
      · exact Or.inl hy
      · exact Or.inr (List.mem_cons_self _ _)
      · exact Or.inr (List.mem_cons_of_mem _ hy)
    · rintro (hy | hy)
      · exact Or.inl (Or.inl hy)
      · rcases List.mem_cons.mp hy with rfl | hy
        · exact Or.inl (Or.inr rfl)
        · exact Or.inr hy

theorem nodup_addAllFrom {acc : List String} (h : acc.Nodup) (ls : List String) :
    (addAllFrom acc ls).Nodup := by
  induction ls generalizing acc with
  | nil => simpa [addAllFrom]
  | cons a t ih =>
    simp only [addAllFrom, List.foldl_cons]
    exact ih (nodup_addUnique h a)

/-- `isPre a b`: the character list `a` starts the character list `b`. -/
def isPre : List Char → List Char → Bool
  | [], _ => true
  | _ :: _, [] => false
  | a :: as, b :: bs => a == b && isPre as bs

/-- Python's `needle in haystack` substring test on character lists. -/
def containsSub (hay needle : List Char) : Bool :=
  match hay with
  | [] => decide (needle = [])
  | _ :: t => isPre needle hay || containsSub t needle

/-- Characters treated as whitespace by Python's `str.strip` (ASCII subset). -/
def pyWhitespace (c : Char) : Bool :=
  c == ' ' || c == '\t' || c == '\n' || c == '\r' || c == '\x0b' || c == '\x0c'

/-- Python `str.strip()` (ASCII whitespace). -/
def pyStrip (s : String) : String :=
  String.mk ((s.data.dropWhile pyWhitespace).reverse.dropWhile pyWhitespace).reverse

/-!
### Regular expressions

Syntax tree covering the constructs used by the crawler's patterns: the empty
word, single-character classes, concatenation, prioritized alternation and
greedy Kleene star.  `?`, `+` and `{n}` are derived forms.  Case-insensitive
matching (`re.IGNORECASE`, used by every `re.findall` call in the source) is
folded into the character classes of literals.
-/

inductive RE where
  | eps : RE
  | cls (p : Char → Bool) : RE
  | seq (a b : RE) : RE
  | alt (a b : RE) : RE
  | star (a : RE) : RE

/-- Language membership for `RE` (declarative regex semantics). -/
inductive Matches : RE → List Char → Prop where
  | eps : Matches .eps []
  | cls {p : Char → Bool} {c : Char} : p c = true → Matches (.cls p) [c]
  | seq {a b : RE} {u v : List Char} :
      Matches a u → Matches b v → Matches (.seq a b) (u ++ v)
  | altL {a b : RE} {u : List Char} : Matches a u → Matches (.alt a b) u
  | altR {a b : RE} {u : List Char} : Matches b u → Matches (.alt a b) u
  | starNil {a : RE} : Matches (.star a) []
  | starCons {a : RE} {u v : List Char} :
      Matches a u → Matches (.star a) v → Matches (.star a) (u ++ v)

/-- Size of a regex term, used to pick a sufficient fuel for the matcher. -/
def RE.size : RE → Nat
  | .eps => 1
  | .cls _ => 1
  | .seq a b => a.size + b.size + 1
  | .alt a b => a.size + b.size + 1
  | .star a => a.size + 1

/-- Backtracking matcher.  `msplits fuel r s` lists the suffixes of `s` left
after matching `r` against a prefix of `s`, in the priority order of a Python
(PCRE-style) backtracking engine: alternation prefers its left branch and the
star is greedy.  The fuel only bounds the recursion depth; callers pass enough
fuel for the search to be exhaustive on their inputs. -/
def msplits : Nat → RE → List Char → List (List Char)
  | 0, _, _ => []
  | fuel + 1, r, s =>
    match r, s with
    | .eps, s => [s]
    | .cls _, [] => []
    | .cls p, c :: t => if p c then [t] else []
    | .seq a b, s => (msplits fuel a s).flatMap (fun s1 => msplits fuel b s1)
    | .alt a b, s => msplits fuel a s ++ msplits fuel b s
    | .star a, s =>
        ((msplits fuel a s).flatMap (fun s1 => msplits fuel (.star a) s1)) ++ [s]

theorem msplits_sound :
    ∀ fuel r (s s' : List Char), s' ∈ msplits fuel r s →
      ∃ u, s = u ++ s' ∧ Matches r u := by
  intro fuel
  induction fuel with
  | zero => intro r s s' h; simp [msplits] at h
  | succ n ih =>
    intro r s s' h
    cases r with
    | eps =>
      simp only [msplits, List.mem_singleton] at h
      exact ⟨[], by simp [h], Matches.eps⟩
    | cls p =>
      cases s with
      | nil => simp [msplits] at h
      | cons c t =>
        simp only [msplits] at h
        by_cases hp : p c
        · simp only [if_pos hp, List.mem_singleton] at h
          exact ⟨[c], by simp [h], Matches.cls hp⟩
        · simp [if_neg hp] at h
    | seq a b =>
      simp only [msplits, List.mem_flatMap] at h
      obtain ⟨t, ht, hs⟩ := h
      obtain ⟨u, rfl, hu⟩ := ih a s t ht
      obtain ⟨v, rfl, hv⟩ := ih b t s' hs
      exact ⟨u ++ v, by simp, Matches.seq hu hv⟩
    | alt a b =>
      simp only [msplits, List.mem_append] at h
      rcases h with h | h
      · obtain ⟨u, rfl, hu⟩ := ih a s s' h
        exact ⟨u, rfl, Matches.altL hu⟩
      · obtain ⟨u, rfl, hu⟩ := ih b s s' h
        exact ⟨u, rfl, Matches.altR hu⟩
    | star a =>
      simp only [msplits, List.mem_append, List.mem_flatMap, List.mem_singleton] at h
      rcases h with ⟨t, ht, hs⟩ | rfl
      · obtain ⟨u, rfl, hu⟩ := ih a s t ht
        obtain ⟨v, rfl, hv⟩ := ih (.star a) t s' hs
        exact ⟨u ++ v, by simp, Matches.starCons hu hv⟩
      · exact ⟨[], by simp, Matches.starNil⟩

/-- Fuel sufficient for an exhaustive backtracking search of `r` over `s`. -/
def matchFuel (r : RE) (s : List Char) : Nat :=
  (r.size + 1) * (s.length + 2)

/-- One `re.findall` step stream: scan left to right, take the backtracking
engine's first match at each position, emit it and continue after it
(non-overlapping); on a zero-width match or no match, advance one character.
The outer fuel is bounded by the string length. -/
def findAll : Nat → RE → List Char → List (List Char)
  | 0, _, _ => []
  | fuel + 1, r, s =>
    match (msplits (matchFuel r s) r s).head? with
    | none =>
      match s with
      | [] => []
      | _ :: t => findAll fuel r t
    | some s1 =>
      if s.length - s1.length = 0 then
        List.take (s.length - s1.length) s ::
          (match s with
           | [] => []
           | _ :: t => findAll fuel r t)
      else
        List.take (s.length - s1.length) s :: findAll fuel r s1

/-- `re.findall(pattern, content, re.IGNORECASE)`, restricted to the patterns
of this source where group 1 always spans the whole pattern (so the Python
result tuples collapse to the whole matched text). -/
def reFindAll (r : RE) (s : List Char) : List (List Char) :=
  findAll (s.length + 1) r s

theorem findAll_sound :
    ∀ fuel r (s m : List Char), m ∈ findAll fuel r s → Matches r m := by
  intro fuel
  induction fuel with
  | zero => intro r s m h; simp [findAll] at h
  | succ n ih =>
    intro r s m h
    simp only [findAll] at h
    cases hh : (msplits (matchFuel r s) r s).head? with
    | none =>
      rw [hh] at h
      dsimp only at h
      cases s with
      | nil => simp at h
      | cons c t => exact ih r t m h
    | some s1 =>
      rw [hh] at h
      dsimp only at h
      have hmem : s1 ∈ msplits (matchFuel r s) r s := by
        cases hl : msplits (matchFuel r s) r s with
        | nil => rw [hl] at hh; simp at hh
        | cons x xs =>
          rw [hl] at hh
          simp only [List.head?_cons, Option.some.injEq] at hh
          rw [← hh]
          exact List.mem_cons_self _ _
      obtain ⟨u, hsu, hu⟩ := msplits_sound _ _ _ _ hmem
      have hlen : s.length - s1.length = u.length := by
        subst hsu; simp
      have htake : (List.take (s.length - s1.length) s) = u := by
        rw [hlen, hsu]
        exact List.take_left u s1
      by_cases hz : s.length - s1.length = 0
      · rw [if_pos hz] at h
        rcases List.mem_cons.mp h with rfl | h
        · rw [htake]; exact hu
        · cases s with
          | nil => simp at h
          | cons c t => exact ih r t m h
      · rw [if_neg hz] at h
        rcases List.mem_cons.mp h with rfl | h
        · rw [htake]; exact hu
        · exact ih r s1 m h

/-! Derived regex forms (all matching is case-insensitive per `re.IGNORECASE`). -/

/-- A literal character, matched case-insensitively. -/
def RE.lit (c : Char) : RE := .cls (fun d => d.toLower == c.toLower)

/-- A literal string (e.g. an `re.escape`d domain), matched case-insensitively. -/
def RE.lits (s : String) : RE := s.data.foldr (fun c r => .seq (.lit c) r) .eps

/-- Greedy `x?`: prefer presence. -/
def RE.hopt (a : RE) : RE := .alt a .eps

/-- Greedy `x+`. -/
def RE.rep1 (a : RE) : RE := .seq a (.star a)

/-- `x{n}`: exactly `n` copies. -/
def RE.repN : Nat → RE → RE
  | 0, _ => .eps
  | n + 1, a => .seq a (RE.repN n a)

/-- Concatenation of a list of regexes (readability helper for the catalog). -/
def RE.cat (rs : List RE) : RE := rs.foldr RE.seq RE.eps

/-!
### Character classes of the source's patterns

Python's `\w` is Unicode-aware; the crawler's feeds mix ASCII and Chinese, so
the model covers ASCII word characters plus the CJK Unified Ideographs block
(the only non-ASCII characters appearing in this source's patterns/domains).
-/

/-- `\w`: ASCII alphanumerics, underscore, and CJK ideographs. -/
def isWordChar (c : Char) : Bool :=
  c.isAlphanum || c == '_' || (0x4e00 ≤ c.toNat && c.toNat ≤ 0x9fff)

/-- `[\w\-]` -/
def wordDash (c : Char) : Bool := isWordChar c || c == '-'

/-- `[a-fA-F0-9]` -/
def hexAny (c : Char) : Bool :=
  c.isDigit || (97 ≤ c.toNat && c.toNat ≤ 102) || (65 ≤ c.toNat && c.toNat ≤ 70)

/-- `[A-F0-9]` under `re.IGNORECASE` (so lowercase hex digits match too). -/
def hexUpperCI (c : Char) : Bool :=
  c.isDigit || (65 ≤ c.toNat && c.toNat ≤ 70) || (97 ≤ c.toNat && c.toNat ≤ 102)

/-- `[\w\-\=]` -/
def wordDashEq (c : Char) : Bool := wordDash c || c == '='

/-- `[^\|]` -/
def notPipe (c : Char) : Bool := c != '|'

/-- The class `[\w\- / . ? & = %]` (written here with spaces; greedy URL tail
of the domain-fallback patterns). -/
def urlTail (c : Char) : Bool :=
  isWordChar c || c == '-' || c == '/' || c == '.' || c == '?' || c == '&' ||
    c == '=' || c == '%'

/-- `[^\s"\']` (the wide magnet/ed2k patterns). -/
def notWsQuote (c : Char) : Bool :=
  !(pyWhitespace c || c == '"' || c == '\'')

/-- `https?://` -/
def httpScheme : RE :=
  RE.cat [RE.lits "http", RE.hopt (RE.lit 's'), RE.lits "://"]

/-- `[\w\-]+` -/
def wordDashPlus : RE := RE.rep1 (.cls wordDash)

/-- `https?://HOST/s/[\w\-]+` — the shape shared by most curated patterns. -/
def sPattern (host : String) : RE :=
  RE.cat [httpScheme, RE.lits host, RE.lits "/s/", wordDashPlus]

/-- `https?://115cdn\.com/s/[\w\-]+(\?password=[\w\-]+)?#?` -/
def pat115cdn : RE :=
  RE.cat [httpScheme, RE.lits "115cdn.com/s/", wordDashPlus,
    RE.hopt (RE.cat [RE.lits "?password=", wordDashPlus]), RE.hopt (RE.lit '#')]

/-- `https?://[\w\-]+\.[\w\-]+/s/[\w\-]+` — generic `/s/` fallback of
`_extract_s_links`. -/
def genericSPattern : RE :=
  RE.cat [httpScheme, wordDashPlus, RE.lit '.', wordDashPlus, RE.lits "/s/",
    wordDashPlus]

/-- `magnet:\?xt=urn:btih:[a-fA-F0-9]{40}(&[\w\-\=]+)*` -/
def magnetPattern : RE :=
  RE.cat [RE.lits "magnet:?xt=urn:btih:", RE.repN 40 (.cls hexAny),
    .star (RE.cat [RE.lit '&', RE.rep1 (.cls wordDashEq)])]

/-- `ed2k://\|file\|[^\|]+\|[0-9]+\|[A-F0-9]{32}\|/` -/
def ed2kPattern : RE :=
  RE.cat [RE.lits "ed2k://|file|", RE.rep1 (.cls notPipe), RE.lit '|',
    RE.rep1 (.cls Char.isDigit), RE.lit '|', RE.repN 32 (.cls hexUpperCI),
    RE.lits "|/"]

/-- `s_link_patterns` of `_extract_s_links`, in source order. -/
def sLinkPatterns : List RE :=
  [sPattern "pan.baidu.com",
   sPattern "yun.baidu.com",
   sPattern "www.aliyundrive.com",
   sPattern "aliyundrive.com",
   sPattern "quark.cn",
   sPattern "drive.uc.cn",
   pat115cdn,
   sPattern "pikpak.com",
   sPattern "pan.xunlei.com",
   sPattern "www.123pan.com",
   genericSPattern]

/-- `self.link_patterns` of `RSSCrawler.__init__`, in source order. -/
def linkPatterns : List RE :=
  [sPattern "pan.baidu.com",
   sPattern "yun.baidu.com",
   sPattern "www.aliyundrive.com",
   sPattern "aliyundrive.com",
   sPattern "quark.cn",
   RE.cat [httpScheme, RE.lits "cloud.189.cn/web/share?code=", wordDashPlus],
   RE.cat [httpScheme, RE.lits "cloud.189.cn/t/", wordDashPlus],
   sPattern "drive.uc.cn",
   RE.cat [httpScheme, RE.lits "cloud.10086.cn/t/", wordDashPlus],
   RE.cat [httpScheme, RE.lits "115.com/lb/?s=", wordDashPlus],
   pat115cdn,
   RE.cat [httpScheme, RE.lits "api.pikpak.com/drive/v1/files/", wordDashPlus,
     RE.lits "/share"],
   sPattern "pikpak.com",
   sPattern "pan.xunlei.com",
   sPattern "www.123pan.com",
   magnetPattern,
   ed2kPattern]

/-- `self.cloud_domains` of `RSSCrawler.__init__`, in source (insertion) order. -/
def cloudDomains : List (String × List String) :=
  [("baidu", ["pan.baidu.com", "yun.baidu.com", "百度网盘"]),
   ("aliyun", ["aliyundrive.com", "阿里云盘"]),
   ("quark", ["quark.cn", "夸克网盘"]),
   ("tianyi", ["cloud.189.cn", "天翼云盘"]),
   ("uc", ["drive.uc.cn", "UC网盘"]),
   ("mobile", ["cloud.10086.cn", "移动云盘"]),
   ("115", ["115.com", "115cdn.com", "115网盘"]),
   ("pikpak", ["pikpak.com", "PikPak"]),
   ("xunlei", ["pan.xunlei.com", "迅雷网盘"]),
   ("123", ["123pan.com", "123网盘"]),
   ("magnet", ["magnet:?xt="]),
   ("ed2k", ["ed2k://"])]

/-- `re.sub(r'[^\u4e00-\u9fa5]', '', domain)`: keep only CJK ideographs. -/
def cjkOnly (d : String) : String :=
  String.mk (d.data.filter (fun c => 0x4e00 ≤ c.toNat && c.toNat ≤ 0x9fa5))

/-- Domain-fallback pattern for an ASCII domain:
`https?://[\w\-]+\.?DOMAIN` followed by one or more URL-tail characters. -/
def asciiDomainPattern (d : String) : RE :=
  RE.cat [httpScheme, wordDashPlus, RE.hopt (RE.lit '.'), RE.lits d,
    RE.rep1 (.cls urlTail)]

/-- Domain-fallback pattern for a domain containing non-ASCII characters:
`https?://[\w\-]+\.?CJK(DOMAIN)` followed by one or more URL-tail characters. -/
def cjkDomainPattern (d : String) : RE :=
  RE.cat [httpScheme, wordDashPlus, RE.hopt (RE.lit '.'), RE.lits (cjkOnly d),
    RE.rep1 (.cls urlTail)]

/-- `magnet:\?[^\s"\']+` (wide variant pass). -/
def magnetWide : RE := RE.cat [RE.lits "magnet:?", RE.rep1 (.cls notWsQuote)]

/-- `ed2k://[^\s"\']+` (wide variant pass). -/
def ed2kWide : RE := RE.cat [RE.lits "ed2k://", RE.rep1 (.cls notWsQuote)]

/-- `any(char > '\u007f' for char in domain)` -/
def hasNonAscii (d : String) : Bool := d.data.any (fun c => 0x7f < c.toNat)

/-- Add every `re.findall` match of one pattern to the accumulated set
(the per-pattern loop shared by `_extract_s_links` and `_extract_links`;
group 1 spans each whole pattern, so the first non-empty group of a match
tuple is the whole matched text). -/
def addAllMatches (content : List Char) (acc : List String) (p : RE) : List String :=
  (reFindAll p content).foldl (fun a m => addUnique a (String.mk m)) acc

/-- `_extract_s_links` -/
def extractSLinks (content : List Char) : List String :=
  sLinkPatterns.foldl (addAllMatches content) []

/-- The domain-scan pass of `_extract_links` (third pass). -/
def domainPass (content : List Char) (acc : List String) : List String :=
  cloudDomains.foldl (fun acc entry =>
    entry.2.foldl (fun acc d =>
      if isPre "magnet:?xt=".data d.data || isPre "ed2k://".data d.data then acc
      else if containsSub d.data "/s/".data then acc
      else if hasNonAscii d then
        if containsSub content d.data then
          addAllMatches content acc (cjkDomainPattern d)
        else acc
      else addAllMatches content acc (asciiDomainPattern d)) acc) acc

/-- `_extract_links`: `/s/` pass, full catalog pass, domain-fallback pass, then
the wide magnet/ed2k pass. -/
def extractLinks (content : List Char) : List String :=
  let links := extractSLinks content
  let links := linkPatterns.foldl (addAllMatches content) links
  let links := domainPass content links
  let links := addAllMatches content links magnetWide
  addAllMatches content links ed2kWide

/-- All domain-fallback grammars (for any domain of the catalog, in either the
ASCII or the CJK-reduced form). -/
def domainFallbackGrammars : List RE :=
  cloudDomains.flatMap (fun e =>
    e.2.flatMap (fun d => [asciiDomainPattern d, cjkDomainPattern d]))

/-- Every link grammar the engine is defined from: curated `/s/` patterns,
the full catalog, the domain-fallback family, and the wide magnet/ed2k
patterns. -/
def allGrammars : List RE :=
  sLinkPatterns ++ linkPatterns ++ domainFallbackGrammars ++ [magnetWide, ed2kWide]

/-!
### Feed fetch with retry (`_crawl_single_feed`)

One feed attempt either parses successfully (yielding entries), fails
structurally (`feed.bozo`), or raises a transport exception.  The attempt
outcomes and the random jitter values are oracles indexed by the attempt
number.  The model additionally emits the sequence of `time.sleep` calls, so
the delay schedule can be stated.  The `gas` parameter equals the remaining
attempt budget `retryCount - attempt` and only drives structural recursion.
-/

/-- One syndication item: optional title, optional summary, content blocks. -/
structure FeedEntry where
  title : Option String
  summary : Option String
  contents : List String
deriving DecidableEq

/-- The combined text of an entry: title, summary and every content block,
each followed by a newline (as built in the entry loop of
`_crawl_single_feed`). -/
def entryText (e : FeedEntry) : String :=
  (match e.title with | some t => t ++ "\n" | none => "") ++
  (match e.summary with | some s => s ++ "\n" | none => "") ++
  String.join (e.contents.map (fun c => c ++ "\n"))

/-- Outcome of one `feedparser.parse` attempt. -/
inductive AttemptResult where
  | ok (entries : List FeedEntry)
  | bozo (msg : String)
  | exc (msg : String)

/-- One `time.sleep` call of the retry loop: the pre-attempt random jitter
(`random.uniform(1, 3)`), the fixed 5-second cool-down for the
remote-closed signature, or the backoff `2 * attempt` after failed attempt
`n` (1-indexed). -/
inductive Sleep where
  | jitter (d : ℚ)
  | cool
  | backoff (n : Nat)
deriving DecidableEq

/-- Duration (in seconds) of one recorded sleep. -/
def Sleep.duration : Sleep → ℚ
  | .jitter d => d
  | .cool => 5
  | .backoff n => 2 * n

/-- The error-message signature that triggers the extra cool-down. -/
def remoteClosedSig : String := "Remote end closed connection without response"

/-- `"Remote end closed connection without response" in error_msg` -/
def hasRemoteClosedSig (msg : String) : Bool :=
  containsSub msg.data remoteClosedSig.data

/-- The link filter of the success branch: add each extracted link to the
per-feed result set unless it is already in `self.crawled_links`. -/
def addNewFrom (crawled acc : List String) (ls : List String) : List String :=
  ls.foldl (fun a l => if l ∈ crawled then a else addUnique a l) acc

/-- The success branch of `_crawl_single_feed`: fold the entry loop,
extracting links from each entry's combined text and keeping the unseen ones. -/
def extractNewLinks (crawled : List String) (entries : List FeedEntry) : List String :=
  entries.foldl (fun acc e => addNewFrom crawled acc (extractLinks (entryText e).data)) []

/-- `if feed_url in self.failed_feeds: self.failed_feeds.remove(feed_url)` -/
def eraseIfMem (failed : List String) (u : String) : List String :=
  if u ∈ failed then failed.erase u else failed

/-- The retry loop of `_crawl_single_feed`, from attempt number `attempt` with
`gas = retryCount - attempt` remaining budget.  Returns the per-feed new-link
set, the updated `failed_feeds` set, and the emitted sleep sequence. -/
def crawlGo (attempts : Nat → AttemptResult) (jv : Nat → ℚ) (crawled : List String)
    (feedUrl : String) (retryCount : Nat) :
    Nat → Nat → List String → List String × List String × List Sleep
  | _, 0, failed => ([], failed, [])
  | attempt, gas + 1, failed =>
    if attempt < retryCount then
      match attempts attempt with
      | .ok entries =>
          (extractNewLinks crawled entries, eraseIfMem failed feedUrl,
           [Sleep.jitter (jv attempt)])
      | .bozo msg =>
          let pre := [Sleep.jitter (jv attempt)] ++
            (if hasRemoteClosedSig msg then [Sleep.cool] else [])
          if attempt + 1 < retryCount then
            let r := crawlGo attempts jv crawled feedUrl retryCount (attempt + 1) gas failed
            (r.1, r.2.1, pre ++ [Sleep.backoff (attempt + 1)] ++ r.2.2)
          else
            ([], failed, pre)
      | .exc msg =>
          let pre := [Sleep.jitter (jv attempt)] ++
            (if hasRemoteClosedSig msg then [Sleep.cool] else [])
          if attempt + 1 < retryCount then
            let r := crawlGo attempts jv crawled feedUrl retryCount (attempt + 1) gas failed
            (r.1, r.2.1, pre ++ [Sleep.backoff (attempt + 1)] ++ r.2.2)
          else
            ([], addUnique failed feedUrl, pre)
    else ([], failed, [])

/-- `_crawl_single_feed(feed_url, retry_count)` over the state pieces it
touches (`self.crawled_links` read-only, `self.failed_feeds` updated). -/
def crawlSingleFeed (attempts : Nat → AttemptResult) (jv : Nat → ℚ)
    (crawled failed : List String) (feedUrl : String) (retryCount : Nat) :
    List String × List String × List Sleep :=
  crawlGo attempts jv crawled feedUrl retryCount 0 retryCount failed

/-- Derived description of the loop's exit: which attempt outcome ends it. -/
inductive CrawlEnd where
  | success (entries : List FeedEntry)
  | lastBozo
  | lastExc
  | noAttempt
deriving DecidableEq

/-- How the retry loop starting at `attempt` with budget `gas` ends. -/
def crawlEnd (attempts : Nat → AttemptResult) (retryCount : Nat) :
    Nat → Nat → CrawlEnd
  | _, 0 => .noAttempt
  | attempt, gas + 1 =>
    if attempt < retryCount then
      match attempts attempt with
      | .ok entries => .success entries
      | .bozo _ =>
          if attempt + 1 < retryCount then crawlEnd attempts retryCount (attempt + 1) gas
          else .lastBozo
      | .exc _ =>
          if attempt + 1 < retryCount then crawlEnd attempts retryCount (attempt + 1) gas
          else .lastExc
    else .noAttempt

/-!
### Persistence (`_load_existing_links`, `_save_links`) and the cycle (`run`)
-/

/-- One physical line of the durable store as the loader sees it: either a
decodable line or a line whose read raises (e.g. a `UnicodeDecodeError`). -/
inductive LineRead where
  | line (s : String)
  | unreadable
deriving DecidableEq

/-- The `for line in f` loop of `_load_existing_links`.  The whole loop is
wrapped in a single `try`, so a raising line ends the load with whatever was
accumulated so far. -/
def loadLoop : List LineRead → List String → List String
  | [], acc => acc
  | .line s :: t, acc =>
      if pyStrip s ≠ "" then loadLoop t (addUnique acc (pyStrip s)) else loadLoop t acc
  | .unreadable :: _, acc => acc

/-- `_load_existing_links`: `none` models an absent store file
(`os.path.exists` false). -/
def loadExistingLinks : Option (List LineRead) → List String
  | none => []
  | some ls => loadLoop ls []

/-- A wall-clock timestamp (the fields `strftime` reads). -/
structure DateTime where
  year : Nat
  month : Nat
  day : Nat
  hour : Nat
  minute : Nat
  second : Nat
deriving DecidableEq

/-- Two-digit zero padding, as `strftime` formats numeric fields. -/
def pad2 (n : Nat) : String :=
  if n < 10 then "0" ++ toString n else toString n

/-- `_get_timestamp_filename`: `now.strftime("%m%d%H%M.txt")`. -/
def timestampFilename (t : DateTime) : String :=
  pad2 t.month ++ pad2 t.day ++ pad2 t.hour ++ pad2 t.minute ++ ".txt"

/-- `now.strftime('%Y-%m-%d %H:%M:%S')` (header timestamps). -/
def formatFull (t : DateTime) : String :=
  toString t.year ++ "-" ++ pad2 t.month ++ "-" ++ pad2 t.day ++ " " ++
    pad2 t.hour ++ ":" ++ pad2 t.minute ++ ":" ++ pad2 t.second

/-- Write a named file, truncating (`open(..., 'w')`): replace the binding if
the name exists, else create it. -/
def setFile (fs : List (String × List String)) (name : String)
    (content : List String) : List (String × List String) :=
  if fs.any (fun p => p.1 == name) then
    fs.map (fun p => if p.1 == name then (name, content) else p)
  else fs ++ [(name, content)]

/-- The mutable state of `RSSCrawler` plus the durable artifacts it writes. -/
structure CrawlerState where
  crawledLinks : List String
  failedFeeds : List String
  allLinksFile : List String
  snapshots : List (String × List String)
  failedLog : List (DateTime × List String)
deriving DecidableEq

/-- Lines of a per-cycle snapshot file: the two header lines, a blank line,
then one link per line. -/
def snapshotContent (now : DateTime) (newLinks : List String) : List String :=
  ["===== 爬取时间：" ++ formatFull now ++ " =====",
   "===== 发现链接数：" ++ toString newLinks.length ++ " =====", ""] ++ newLinks

/-- `_save_links`: nothing happens without new links; otherwise the snapshot
file is written in truncating mode, and each link is appended to the master
file and inserted into the in-memory set.  `allLinksFile` records the
sequence of `f.write(f"{link}\n")` calls (one entry per written link); the
physical line structure the loader later sees is recovered by `fileLines`,
since a link containing `\n` spans several physical lines. -/
def saveLinks (st : CrawlerState) (newLinks : List String) (now : DateTime) :
    CrawlerState :=
  if newLinks = [] then st
  else
    { st with
      snapshots := setFile st.snapshots (timestampFilename now)
        (snapshotContent now newLinks),
      allLinksFile := st.allLinksFile ++ newLinks,
      crawledLinks := addAllFrom st.crawledLinks newLinks }

/-- A submitted fetch task either runs `_crawl_single_feed` to completion or
raises out of the task (caught by the `as_completed` merge loop). -/
inductive TaskRun where
  | completes (attempts : Nat → AttemptResult)
  | raises (msg : String)

/-- The `as_completed` merge loop of `run`: fold task results into the
cycle-wide new-link set; a raising task only adds its own source to
`failed_feeds`.  (Completion order is modelled as list order; both
destinations are sets, so order is immaterial.) -/
def mergeResults (tasks : String → TaskRun) (jv : Nat → ℚ) (crawled : List String)
    (feeds : List String) (failed0 : List String) : List String × List String :=
  feeds.foldl (fun acc f =>
    match tasks f with
    | .completes attempts =>
        let r := crawlSingleFeed attempts jv crawled acc.2 f 3
        (addAllFrom acc.1 r.1, r.2.1)
    | .raises _ => (acc.1, addUnique acc.2 f)) ([], failed0)

/-- One iteration of `run`'s cycle loop: merge all fetch results, save the new
links, and (when the failed set is non-empty) append one timestamped section
to the never-truncated failure log. -/
def runCycle (tasks : String → TaskRun) (jv : Nat → ℚ) (feeds : List String)
    (st : CrawlerState) (now : DateTime) : CrawlerState :=
  let m := mergeResults tasks jv st.crawledLinks feeds st.failedFeeds
  let st1 := saveLinks { st with failedFeeds := m.2 } m.1 now
  if m.2 = [] then st1
  else { st1 with failedLog := st1.failedLog ++ [(now, m.2)] }

/-- The cycle-wide new-link set a cycle computes (before persisting). -/
def cycleNewLinks (tasks : String → TaskRun) (jv : Nat → ℚ) (feeds : List String)
    (st : CrawlerState) : List String :=
  (mergeResults tasks jv st.crawledLinks feeds st.failedFeeds).1

/-!
### Characterization lemmas
-/

theorem mem_addNewFrom {crawled : List String} :
    ∀ {ls acc : List String} {y : String},
      y ∈ addNewFrom crawled acc ls ↔ y ∈ acc ∨ (y ∈ ls ∧ y ∉ crawled) := by
  intro ls
  induction ls with
  | nil => intro acc y; simp [addNewFrom]
  | cons a t ih =>
    intro acc y
    show y ∈ addNewFrom crawled (if a ∈ crawled then acc else addUnique acc a) t ↔ _
    rw [ih]
    by_cases ha : a ∈ crawled
    · rw [if_pos ha]
      constructor
      · rintro (hy | ⟨hyt, hyc⟩)
        · exact Or.inl hy
        · exact Or.inr ⟨List.mem_cons_of_mem _ hyt, hyc⟩
      · rintro (hy | ⟨hy, hyc⟩)
        · exact Or.inl hy
        · rcases List.mem_cons.mp hy with rfl | hy
          · exact absurd ha hyc
          · exact Or.inr ⟨hy, hyc⟩
    · rw [if_neg ha, mem_addUnique]
      constructor
      · rintro ((hy | rfl) | ⟨hyt, hyc⟩)
        · exact Or.inl hy
        · exact Or.inr ⟨List.mem_cons_self _ _, ha⟩
        · exact Or.inr ⟨List.mem_cons_of_mem _ hyt, hyc⟩
      · rintro (hy | ⟨hy, hyc⟩)
        · exact Or.inl (Or.inl hy)
        · rcases List.mem_cons.mp hy with rfl | hy
          · exact Or.inl (Or.inr rfl)
          · exact Or.inr ⟨hy, hyc⟩

theorem nodup_addNewFrom {crawled : List String} :
    ∀ {ls acc : List String}, acc.Nodup → (addNewFrom crawled acc ls).Nodup := by
  intro ls
  induction ls with
  | nil => intro acc h; simpa [addNewFrom]
  | cons a t ih =>
    intro acc h
    show (addNewFrom crawled (if a ∈ crawled then acc else addUnique acc a) t).Nodup
    by_cases ha : a ∈ crawled
    · rw [if_pos ha]; exact ih h
    · rw [if_neg ha]; exact ih (nodup_addUnique h a)

/-- Every member of the per-feed new-link set is absent from the seen-set. -/
theorem not_mem_crawled_of_mem_addNewFrom {crawled acc ls : List String} {y : String}
    (hacc : ∀ z ∈ acc, z ∉ crawled) (hy : y ∈ addNewFrom crawled acc ls) :
    y ∉ crawled := by
  rcases mem_addNewFrom.mp hy with h | ⟨_, h⟩
  · exact hacc y h
  · exact h

/-- All distinct links extracted from a list of entries (no seen-set filter). -/
def allExtracted (entries : List FeedEntry) : List String :=
  entries.foldl (fun acc e => addAllFrom acc (extractLinks (entryText e).data)) []

theorem mem_allExtracted_go {es : List FeedEntry} :
    ∀ {acc : List String} {l : String},
      l ∈ es.foldl (fun acc e => addAllFrom acc (extractLinks (entryText e).data)) acc ↔
        l ∈ acc ∨ ∃ e ∈ es, l ∈ extractLinks (entryText e).data := by
  induction es with
  | nil => intro acc l; simp
  | cons e t ih =>
    intro acc l
    rw [List.foldl_cons, ih, mem_addAllFrom]
    simp only [List.mem_cons]
    constructor
    · rintro ((h | h) | ⟨e1, h1, h2⟩)
      · exact Or.inl h
      · exact Or.inr ⟨e, Or.inl rfl, h⟩
      · exact Or.inr ⟨e1, Or.inr h1, h2⟩
    · rintro (h | ⟨e1, (rfl | h1), h2⟩)
      · exact Or.inl (Or.inl h)
      · exact Or.inl (Or.inr h2)
      · exact Or.inr ⟨e1, h1, h2⟩

theorem mem_allExtracted {es : List FeedEntry} {l : String} :
    l ∈ allExtracted es ↔ ∃ e ∈ es, l ∈ extractLinks (entryText e).data := by
  unfold allExtracted
  rw [mem_allExtracted_go]
  simp

theorem mem_extractNewLinks_go {crawled : List String} {es : List FeedEntry} :
    ∀ {acc : List String} {l : String},
      l ∈ es.foldl (fun acc e => addNewFrom crawled acc (extractLinks (entryText e).data)) acc ↔
        l ∈ acc ∨ ((∃ e ∈ es, l ∈ extractLinks (entryText e).data) ∧ l ∉ crawled) := by
  induction es with
  | nil => intro acc l; simp
  | cons e t ih =>
    intro acc l
    rw [List.foldl_cons, ih, mem_addNewFrom]
    simp only [List.mem_cons]
    constructor
    · rintro ((h | ⟨h, hc⟩) | ⟨⟨e1, h1, h2⟩, hc⟩)
      · exact Or.inl h
      · exact Or.inr ⟨⟨e, Or.inl rfl, h⟩, hc⟩
      · exact Or.inr ⟨⟨e1, Or.inr h1, h2⟩, hc⟩
    · rintro (h | ⟨⟨e1, (rfl | h1), h2⟩, hc⟩)
      · exact Or.inl (Or.inl h)
      · exact Or.inl (Or.inr ⟨h2, hc⟩)
      · exact Or.inr ⟨⟨e1, h1, h2⟩, hc⟩

theorem mem_extractNewLinks {crawled : List String} {es : List FeedEntry} {l : String} :
    l ∈ extractNewLinks crawled es ↔ l ∈ allExtracted es ∧ l ∉ crawled := by
  unfold extractNewLinks
  rw [mem_extractNewLinks_go, mem_allExtracted]
  simp

theorem nodup_extractNewLinks {crawled : List String} (es : List FeedEntry) :
    (extractNewLinks crawled es).Nodup := by
  unfold extractNewLinks
  generalize h : (List.nil : List String) = acc
  have hacc : acc.Nodup := by rw [← h]; exact List.nodup_nil
  clear h
  induction es generalizing acc with
  | nil => simpa
  | cons e t ih => exact ih _ (nodup_addNewFrom hacc)

/-- The retry loop's new-link set and failed-set update, characterized by how
the loop ends.  (Both are independent of the jitter oracle, and the new-link
set is independent of the incoming failed set.) -/
theorem crawlGo_spec (attempts : Nat → AttemptResult) (jv : Nat → ℚ)
    (crawled : List String) (feedUrl : String) (retryCount : Nat) :
    ∀ gas attempt failed,
      (crawlGo attempts jv crawled feedUrl retryCount attempt gas failed).1 =
        (match crawlEnd attempts retryCount attempt gas with
         | .success es => extractNewLinks crawled es
         | _ => []) ∧
      (crawlGo attempts jv crawled feedUrl retryCount attempt gas failed).2.1 =
        (match crawlEnd attempts retryCount attempt gas with
         | .success _ => eraseIfMem failed feedUrl
         | .lastExc => addUnique failed feedUrl
         | _ => failed) := by
  intro gas
  induction gas with
  | zero => intro attempt failed; simp [crawlGo, crawlEnd]
  | succ g ih =>
    intro attempt failed
    by_cases h : attempt < retryCount
    · cases ha : attempts attempt with
      | ok es => simp [crawlGo, crawlEnd, h, ha]
      | bozo m =>
        by_cases h2 : attempt + 1 < retryCount
        · have hh := ih (attempt + 1) failed
          simp only [crawlGo, crawlEnd, if_pos h, ha, if_pos h2]
          exact ⟨hh.1, hh.2⟩
        · simp [crawlGo, crawlEnd, h, ha, h2]
      | exc m =>
        by_cases h2 : attempt + 1 < retryCount
        · have hh := ih (attempt + 1) failed
          simp only [crawlGo, crawlEnd, if_pos h, ha, if_pos h2]
          exact ⟨hh.1, hh.2⟩
        · simp [crawlGo, crawlEnd, h, ha, h2]
    · simp [crawlGo, crawlEnd, h]

/-- The links a completed retry loop reports before the seen-set filter. -/
def crawlOutcomeLinks (attempts : Nat → AttemptResult) : List String :=
  match crawlEnd attempts 3 0 3 with
  | .success es => allExtracted es
  | _ => []

theorem mem_crawlSingleFeed_fst {attempts : Nat → AttemptResult} {jv : Nat → ℚ}
    {crawled failed : List String} {f l : String} :
    l ∈ (crawlSingleFeed attempts jv crawled failed f 3).1 ↔
      l ∈ crawlOutcomeLinks attempts ∧ l ∉ crawled := by
  unfold crawlSingleFeed
  rw [(crawlGo_spec attempts jv crawled f 3 3 0 failed).1]
  unfold crawlOutcomeLinks
  cases crawlEnd attempts 3 0 3 with
  | success es => exact mem_extractNewLinks
  | lastBozo => simp
  | lastExc => simp
  | noAttempt => simp

theorem nodup_crawlSingleFeed_fst (attempts : Nat → AttemptResult) (jv : Nat → ℚ)
    (crawled failed : List String) (f : String) :
    (crawlSingleFeed attempts jv crawled failed f 3).1.Nodup := by
  unfold crawlSingleFeed
  rw [(crawlGo_spec attempts jv crawled f 3 3 0 failed).1]
  cases crawlEnd attempts 3 0 3 with
  | success es => exact nodup_extractNewLinks es
  | lastBozo => exact List.nodup_nil
  | lastExc => exact List.nodup_nil
  | noAttempt => exact List.nodup_nil

/-- Other sources' membership in the failed set survives one feed's crawl. -/
theorem mem_crawl_failed_of_ne {attempts : Nat → AttemptResult} {jv : Nat → ℚ}
    {crawled failed : List String} {g f : String} (hne : f ≠ g) (hmem : f ∈ failed) :
    f ∈ (crawlSingleFeed attempts jv crawled failed g 3).2.1 := by
  unfold crawlSingleFeed
  rw [(crawlGo_spec attempts jv crawled g 3 3 0 failed).2]
  cases crawlEnd attempts 3 0 3 with
  | success es =>
    unfold eraseIfMem
    by_cases hg : g ∈ failed
    · rw [if_pos hg]
      exact (List.mem_erase_of_ne hne).mpr hmem
    · rwa [if_neg hg]
  | lastBozo => exact hmem
  | lastExc => exact mem_addUnique_of_mem hmem g
  | noAttempt => exact hmem

/-- The links a feed's task contributes to the cycle (before the filter):
nothing for a raising task, the completed crawl's findings otherwise. -/
def taskFound (tasks : String → TaskRun) (f : String) : List String :=
  match tasks f with
  | .completes attempts => crawlOutcomeLinks attempts
  | .raises _ => []

theorem mem_mergeResults_go {tasks : String → TaskRun} {jv : Nat → ℚ}
    {crawled : List String} :
    ∀ {feeds : List String} {acc : List String × List String} {l : String},
      l ∈ (feeds.foldl (fun acc f =>
            match tasks f with
            | .completes attempts =>
                let r := crawlSingleFeed attempts jv crawled acc.2 f 3
                (addAllFrom acc.1 r.1, r.2.1)
            | .raises _ => (acc.1, addUnique acc.2 f)) acc).1 ↔
        l ∈ acc.1 ∨ ∃ f ∈ feeds, l ∈ taskFound tasks f ∧ l ∉ crawled := by
  intro feeds
  induction feeds with
  | nil => intro acc l; simp
  | cons f t ih =>
    intro acc l
    rw [List.foldl_cons]
    cases ht : tasks f with
    | completes attempts =>
      rw [ih]
      simp only [ht]
      rw [mem_addAllFrom, mem_crawlSingleFeed_fst]
      have htf : ∀ y : String, y ∈ taskFound tasks f ↔ y ∈ crawlOutcomeLinks attempts := by
        intro y; unfold taskFound; rw [ht]
      constructor
      · rintro ((h | h) | ⟨f1, h1, h2⟩)
        · exact Or.inl h
        · exact Or.inr ⟨f, List.mem_cons_self _ _, (htf l).mpr h.1, h.2⟩
        · exact Or.inr ⟨f1, List.mem_cons_of_mem _ h1, h2⟩
      · rintro (h | ⟨f1, h1, h2⟩)
        · exact Or.inl (Or.inl h)
        · rcases List.mem_cons.mp h1 with rfl | h1
          · exact Or.inl (Or.inr ⟨(htf l).mp h2.1, h2.2⟩)
          · exact Or.inr ⟨f1, h1, h2⟩
    | raises m2 =>
      rw [ih]
      simp only [ht]
      have htf : taskFound tasks f = [] := by
        unfold taskFound; rw [ht]
      constructor
      · rintro (h | ⟨f1, h1, h2⟩)
        · exact Or.inl h
        · exact Or.inr ⟨f1, List.mem_cons_of_mem _ h1, h2⟩
      · rintro (h | ⟨f1, h1, h2⟩)
        · exact Or.inl h
        · rcases List.mem_cons.mp h1 with rfl | h1
          · rw [htf] at h2; simp at h2
          · exact Or.inr ⟨f1, h1, h2⟩

theorem mem_mergeResults_fst {tasks : String → TaskRun} {jv : Nat → ℚ}
    {crawled : List String} {feeds failed0 : List String} {l : String} :
    l ∈ (mergeResults tasks jv crawled feeds failed0).1 ↔
      ∃ f ∈ feeds, l ∈ taskFound tasks f ∧ l ∉ crawled := by
  unfold mergeResults
  rw [mem_mergeResults_go]
  simp

theorem nodup_mergeResults_go {tasks : String → TaskRun} {jv : Nat → ℚ}
    {crawled : List String} :
    ∀ {feeds : List String} {acc : List String × List String}, acc.1.Nodup →
      (feeds.foldl (fun acc f =>
        match tasks f with
        | .completes attempts =>
            let r := crawlSingleFeed attempts jv crawled acc.2 f 3
            (addAllFrom acc.1 r.1, r.2.1)
        | .raises _ => (acc.1, addUnique acc.2 f)) acc).1.Nodup := by
  intro feeds
  induction feeds with
  | nil => intro acc h; simpa
  | cons f t ih =>
    intro acc h
    rw [List.foldl_cons]
    cases ht : tasks f with
    | completes attempts =>
      simp only [ht]
      exact ih (nodup_addAllFrom h _)
    | raises m =>
      simp only [ht]
      exact ih h

theorem nodup_mergeResults_fst (tasks : String → TaskRun) (jv : Nat → ℚ)
    (crawled feeds failed0 : List String) :
    (mergeResults tasks jv crawled feeds failed0).1.Nodup := by
  unfold mergeResults
  exact nodup_mergeResults_go List.nodup_nil

/-- A raising task's source ends up in the merged failed set (and membership
survives the remaining tasks: no completing task can be the same source, since
the task assignment is a function of the source). -/
theorem mergeResults_mem_failed_go {tasks : String → TaskRun} {jv : Nat → ℚ}
    {crawled : List String} {f : String} {m : String} (hf : tasks f = .raises m) :
    ∀ {feeds : List String} {acc : List String × List String},
      (f ∈ acc.2 ∨ f ∈ feeds) →
      f ∈ (feeds.foldl (fun acc f =>
            match tasks f with
            | .completes attempts =>
                let r := crawlSingleFeed attempts jv crawled acc.2 f 3
                (addAllFrom acc.1 r.1, r.2.1)
            | .raises _ => (acc.1, addUnique acc.2 f)) acc).2 := by
  intro feeds
  induction feeds with
  | nil =>
    intro acc h
    rcases h with h | h
    · simpa using h
    · simp at h
  | cons g t ih =>
    intro acc h
    rw [List.foldl_cons]
    cases ht : tasks g with
    | completes attempts =>
      simp only [ht]
      have hne : f ≠ g := by
        intro he
        rw [he, ht] at hf
        exact TaskRun.noConfusion hf
      rcases h with h | h
      · exact ih (Or.inl (mem_crawl_failed_of_ne hne h))
      · rcases List.mem_cons.mp h with rfl | h
        · exact absurd rfl hne
        · exact ih (Or.inr h)
    | raises m2 =>
      simp only [ht]
      rcases h with h | h
      · exact ih (Or.inl (mem_addUnique_of_mem h g))
      · rcases List.mem_cons.mp h with rfl | h
        · exact ih (Or.inl (self_mem_addUnique _ _))
        · exact ih (Or.inr h)

theorem mergeResults_mem_failed {tasks : String → TaskRun} {jv : Nat → ℚ}
    {crawled feeds failed0 : List String} {f m : String}
    (hf : tasks f = .raises m) (hmem : f ∈ feeds) :
    f ∈ (mergeResults tasks jv crawled feeds failed0).2 := by
  unfold mergeResults
  exact mergeResults_mem_failed_go hf (Or.inr hmem)

/-- What one cycle does to the three pieces of state the claims mention. -/
theorem runCycle_state (tasks : String → TaskRun) (jv : Nat → ℚ)
    (feeds : List String) (st : CrawlerState) (now : DateTime) :
    (runCycle tasks jv feeds st now).crawledLinks =
      (if cycleNewLinks tasks jv feeds st = [] then st.crawledLinks
       else addAllFrom st.crawledLinks (cycleNewLinks tasks jv feeds st)) ∧
    (runCycle tasks jv feeds st now).failedFeeds =
      (mergeResults tasks jv st.crawledLinks feeds st.failedFeeds).2 ∧
    (runCycle tasks jv feeds st now).failedLog =
      (if (mergeResults tasks jv st.crawledLinks feeds st.failedFeeds).2 = []
       then st.failedLog
       else st.failedLog ++
         [(now, (mergeResults tasks jv st.crawledLinks feeds st.failedFeeds).2)]) := by
  unfold runCycle cycleNewLinks saveLinks
  split_ifs <;> simp_all

/-! ### Load/save lemmas -/

theorem loadLoop_stops_at_unreadable (rest : List LineRead) :
    ∀ (pre : List String) (acc : List String),
      loadLoop (pre.map .line ++ .unreadable :: rest) acc =
        loadLoop (pre.map .line) acc := by
  intro pre
  induction pre with
  | nil => intro acc; simp [loadLoop]
  | cons s t ih =>
    intro acc
    simp only [List.map_cons, List.cons_append, loadLoop, List.append_eq]
    by_cases hs : pyStrip s ≠ ""
    · rw [if_pos hs, if_pos hs, ih]
    · rw [if_neg hs, if_neg hs, ih]

/-- The specification's delay schedule: a jittered sleep before each executed
attempt; after a failed attempt an extra fixed cool-down exactly when the
failure message carries the remote-closed signature; then, unless the failed
attempt was the final one, a backoff sleep of base times the 1-indexed attempt
number before the next attempt (and no backoff after the final attempt). -/
def specSchedule (attempts : Nat → AttemptResult) (jv : Nat → ℚ) (retryCount : Nat) :
    Nat → Nat → List Sleep
  | _, 0 => []
  | attempt, gas + 1 =>
    if attempt < retryCount then
      Sleep.jitter (jv attempt) ::
        (match attempts attempt with
         | .ok _ => []
         | .bozo msg =>
             (if hasRemoteClosedSig msg then [Sleep.cool] else []) ++
               (if attempt + 1 < retryCount then
                  Sleep.backoff (attempt + 1) ::
                    specSchedule attempts jv retryCount (attempt + 1) gas
                else [])
         | .exc msg =>
             (if hasRemoteClosedSig msg then [Sleep.cool] else []) ++
               (if attempt + 1 < retryCount then
                  Sleep.backoff (attempt + 1) ::
                    specSchedule attempts jv retryCount (attempt + 1) gas
                else []))
    else []

/-- The retry loop's emitted sleeps follow the specification's schedule. -/
theorem crawlGo_trace (attempts : Nat → AttemptResult) (jv : Nat → ℚ)
    (crawled : List String) (feedUrl : String) (retryCount : Nat) :
    ∀ gas attempt failed,
      (crawlGo attempts jv crawled feedUrl retryCount attempt gas failed).2.2 =
        specSchedule attempts jv retryCount attempt gas := by
  intro gas
  induction gas with
  | zero => intro attempt failed; simp [crawlGo, specSchedule]
  | succ g ih =>
    intro attempt failed
    by_cases h : attempt < retryCount
    · cases ha : attempts attempt with
      | ok es => simp [crawlGo, specSchedule, h, ha]
      | bozo m =>
        by_cases h2 : attempt + 1 < retryCount
        · simp [crawlGo, specSchedule, h, ha, h2, ih]
        · simp [crawlGo, specSchedule, h, ha, h2]
      | exc m =>
        by_cases h2 : attempt + 1 < retryCount
        · simp [crawlGo, specSchedule, h, ha, h2, ih]
        · simp [crawlGo, specSchedule, h, ha, h2]
    · simp [crawlGo, specSchedule, h]

/-- Every jitter value in the schedule comes from the jitter oracle. -/
theorem specSchedule_jitter (attempts : Nat → AttemptResult) (jv : Nat → ℚ)
    (retryCount : Nat) :
    ∀ gas attempt d,
      Sleep.jitter d ∈ specSchedule attempts jv retryCount attempt gas →
      ∃ i, d = jv i := by
  intro gas
  induction gas with
  | zero => intro attempt d h; simp [specSchedule] at h
  | succ g ih =>
    intro attempt d h
    by_cases hc : attempt < retryCount
    · simp only [specSchedule, if_pos hc] at h
      rcases List.mem_cons.mp h with he | h
      · exact ⟨attempt, by injection he⟩
      · cases ha : attempts attempt with
        | ok es => rw [ha] at h; simp at h
        | bozo m =>
          rw [ha] at h
          rcases List.mem_append.mp h with h | h
          · by_cases hsig : hasRemoteClosedSig m <;> simp [hsig] at h
          · by_cases h2 : attempt + 1 < retryCount
            · rw [if_pos h2] at h
              rcases List.mem_cons.mp h with he | h
              · exact absurd he (by simp)
              · exact ih (attempt + 1) d h
            · rw [if_neg h2] at h; simp at h
        | exc m =>
          rw [ha] at h
          rcases List.mem_append.mp h with h | h
          · by_cases hsig : hasRemoteClosedSig m <;> simp [hsig] at h
          · by_cases h2 : attempt + 1 < retryCount
            · rw [if_pos h2] at h
              rcases List.mem_cons.mp h with he | h
              · exact absurd he (by simp)
              · exact ih (attempt + 1) d h
            · rw [if_neg h2] at h; simp at h
    · simp [specSchedule, hc] at h

/-- Every backoff in the schedule is numbered by a 1-indexed non-final
attempt: no backoff follows the final attempt. -/
theorem specSchedule_backoff (attempts : Nat → AttemptResult) (jv : Nat → ℚ)
    (retryCount : Nat) :
    ∀ gas attempt n,
      Sleep.backoff n ∈ specSchedule attempts jv retryCount attempt gas →
      1 ≤ n ∧ n < retryCount := by
  intro gas
  induction gas with
  | zero => intro attempt n h; simp [specSchedule] at h
  | succ g ih =>
    intro attempt n h
    by_cases hc : attempt < retryCount
    · simp only [specSchedule, if_pos hc] at h
      rcases List.mem_cons.mp h with he | h
      · exact absurd he (by simp)
      · cases ha : attempts attempt with
        | ok es => rw [ha] at h; simp at h
        | bozo m =>
          rw [ha] at h
          rcases List.mem_append.mp h with h | h
          · by_cases hsig : hasRemoteClosedSig m <;> simp [hsig] at h
          · by_cases h2 : attempt + 1 < retryCount
            · rw [if_pos h2] at h
              rcases List.mem_cons.mp h with he | h
              · injection he with he; omega
              · exact ih (attempt + 1) n h
            · rw [if_neg h2] at h; simp at h
        | exc m =>
          rw [ha] at h
          rcases List.mem_append.mp h with h | h
          · by_cases hsig : hasRemoteClosedSig m <;> simp [hsig] at h
          · by_cases h2 : attempt + 1 < retryCount
            · rw [if_pos h2] at h
              rcases List.mem_cons.mp h with he | h
              · injection he with he; omega
              · exact ih (attempt + 1) n h
            · rw [if_neg h2] at h; simp at h
    · simp [specSchedule, hc] at h

/-! ### Safety invariant of the extraction engine (C7 infrastructure) -/

/-- A link set is duplicate-free and every member belongs to the language of
one of the defined grammars. -/
def GoodAcc (acc : List String) : Prop :=
  acc.Nodup ∧ ∀ l ∈ acc, ∃ r ∈ allGrammars, Matches r l.data

theorem goodAcc_nil : GoodAcc [] := ⟨List.nodup_nil, by simp⟩

theorem goodAcc_addUnique {acc : List String} (h : GoodAcc acc) {x : String}
    (hx : ∃ r ∈ allGrammars, Matches r x.data) : GoodAcc (addUnique acc x) := by
  refine ⟨nodup_addUnique h.1 x, ?_⟩
  intro l hl
  rcases mem_addUnique.mp hl with hl | rfl
  · exact h.2 l hl
  · exact hx

theorem goodAcc_foldMatches {p : RE} (hp : p ∈ allGrammars) :
    ∀ (ms : List (List Char)), (∀ m ∈ ms, Matches p m) →
      ∀ acc, GoodAcc acc →
      GoodAcc (ms.foldl (fun a m => addUnique a (String.mk m)) acc) := by
  intro ms
  induction ms with
  | nil => intro _ acc h; exact h
  | cons m t ih =>
    intro hm acc h
    rw [List.foldl_cons]
    exact ih (fun x hx => hm x (List.mem_cons_of_mem _ hx)) _
      (goodAcc_addUnique h ⟨p, hp, hm m (List.mem_cons_self _ _)⟩)

theorem goodAcc_addAllMatches {content : List Char} {p : RE} (hp : p ∈ allGrammars)
    {acc : List String} (h : GoodAcc acc) : GoodAcc (addAllMatches content acc p) :=
  goodAcc_foldMatches hp _ (fun m hm => findAll_sound _ _ _ _ hm) acc h

theorem goodAcc_foldPatterns {content : List Char} :
    ∀ (ps : List RE), (∀ p ∈ ps, p ∈ allGrammars) →
      ∀ acc, GoodAcc acc → GoodAcc (ps.foldl (addAllMatches content) acc) := by
  intro ps
  induction ps with
  | nil => intro _ acc h; exact h
  | cons p t ih =>
    intro hp acc h
    rw [List.foldl_cons]
    exact ih (fun q hq => hp q (List.mem_cons_of_mem _ hq)) _
      (goodAcc_addAllMatches (hp p (List.mem_cons_self _ _)) h)

theorem asciiDomainPattern_mem_allGrammars {d : String} {e : String × List String}
    (he : e ∈ cloudDomains) (hd : d ∈ e.2) : asciiDomainPattern d ∈ allGrammars := by
  unfold allGrammars
  refine List.mem_append.mpr (Or.inl (List.mem_append.mpr (Or.inr ?_)))
  unfold domainFallbackGrammars
  exact List.mem_flatMap.mpr ⟨e, he, List.mem_flatMap.mpr ⟨d, hd, by simp⟩⟩

theorem cjkDomainPattern_mem_allGrammars {d : String} {e : String × List String}
    (he : e ∈ cloudDomains) (hd : d ∈ e.2) : cjkDomainPattern d ∈ allGrammars := by
  unfold allGrammars
  refine List.mem_append.mpr (Or.inl (List.mem_append.mpr (Or.inr ?_)))
  unfold domainFallbackGrammars
  exact List.mem_flatMap.mpr ⟨e, he, List.mem_flatMap.mpr ⟨d, hd, by simp⟩⟩

theorem goodAcc_domainPass {content : List Char} {acc : List String}
    (h : GoodAcc acc) : GoodAcc (domainPass content acc) := by
  unfold domainPass
  have houter :
      ∀ (es : List (String × List String)), (∀ e ∈ es, e ∈ cloudDomains) →
        ∀ acc, GoodAcc acc →
        GoodAcc (es.foldl (fun acc entry =>
          entry.2.foldl (fun acc d =>
            if isPre "magnet:?xt=".data d.data || isPre "ed2k://".data d.data then acc
            else if containsSub d.data "/s/".data then acc
            else if hasNonAscii d then
              if containsSub content d.data then
                addAllMatches content acc (cjkDomainPattern d)
              else acc
            else addAllMatches content acc (asciiDomainPattern d)) acc) acc) := by
    intro es
    induction es with
    | nil => intro _ acc h; exact h
    | cons e t ih =>
      intro hes acc h
      rw [List.foldl_cons]
      refine ih (fun x hx => hes x (List.mem_cons_of_mem _ hx)) _ ?_
      have he : e ∈ cloudDomains := hes e (List.mem_cons_self _ _)
      have hinner :
          ∀ (ds : List String), (∀ d ∈ ds, d ∈ e.2) →
            ∀ acc, GoodAcc acc →
            GoodAcc (ds.foldl (fun acc d =>
              if isPre "magnet:?xt=".data d.data || isPre "ed2k://".data d.data then acc
              else if containsSub d.data "/s/".data then acc
              else if hasNonAscii d then
                if containsSub content d.data then
                  addAllMatches content acc (cjkDomainPattern d)
                else acc
              else addAllMatches content acc (asciiDomainPattern d)) acc) := by
        intro ds
        induction ds with
        | nil => intro _ acc h; exact h
        | cons d dt ihd =>
          intro hds acc h
          rw [List.foldl_cons]
          refine ihd (fun x hx => hds x (List.mem_cons_of_mem _ hx)) _ ?_
          have hd : d ∈ e.2 := hds d (List.mem_cons_self _ _)
          split_ifs with h1 h2 h3 h4
          · exact h
          · exact h
          · exact goodAcc_addAllMatches (cjkDomainPattern_mem_allGrammars he hd) h
          · exact h
          · exact goodAcc_addAllMatches (asciiDomainPattern_mem_allGrammars he hd) h
      exact hinner e.2 (fun d hd => hd) acc h
  exact houter cloudDomains (fun e he => he) acc h

/-- The full extraction engine preserves the safety invariant. -/
theorem goodAcc_extractLinks (content : List Char) : GoodAcc (extractLinks content) := by
  unfold extractLinks
  have h1 : GoodAcc (extractSLinks content) := by
    unfold extractSLinks
    refine goodAcc_foldPatterns sLinkPatterns ?_ [] goodAcc_nil
    intro p hp
    unfold allGrammars
    exact List.mem_append.mpr (Or.inl (List.mem_append.mpr (Or.inl
      (List.mem_append.mpr (Or.inl hp)))))
  have h2 : GoodAcc (linkPatterns.foldl (addAllMatches content) (extractSLinks content)) := by
    refine goodAcc_foldPatterns linkPatterns ?_ _ h1
    intro p hp
    unfold allGrammars
    exact List.mem_append.mpr (Or.inl (List.mem_append.mpr (Or.inl
      (List.mem_append.mpr (Or.inr hp)))))
  have h3 : GoodAcc (domainPass content
      (linkPatterns.foldl (addAllMatches content) (extractSLinks content))) :=
    goodAcc_domainPass h2
  have hm : magnetWide ∈ allGrammars := by
    unfold allGrammars
    exact List.mem_append.mpr (Or.inr (by simp))
  have he : ed2kWide ∈ allGrammars := by
    unfold allGrammars
    exact List.mem_append.mpr (Or.inr (by simp))
  exact goodAcc_addAllMatches he (goodAcc_addAllMatches hm h3)

/-- Whether an attempt outcome is a failure (structural or transport). -/
def AttemptResult.isFail : AttemptResult → Bool
  | .ok _ => false
  | .bozo _ => true
  | .exc _ => true

/-- All distinct links found by the cycle's completing fetch tasks, before the
seen-set filter (the claim's "distinct links found"). -/
def distinctFound (tasks : String → TaskRun) (feeds : List String) : List String :=
  feeds.foldl (fun acc f => addAllFrom acc (taskFound tasks f)) []

theorem mem_distinctFound_go {tasks : String → TaskRun} :
    ∀ {feeds : List String} {acc : List String} {l : String},
      l ∈ feeds.foldl (fun acc f => addAllFrom acc (taskFound tasks f)) acc ↔
        l ∈ acc ∨ ∃ f ∈ feeds, l ∈ taskFound tasks f := by
  intro feeds
  induction feeds with
  | nil => intro acc l; simp
  | cons f t ih =>
    intro acc l
    rw [List.foldl_cons, ih, mem_addAllFrom]
    constructor
    · rintro ((h | h) | ⟨f1, h1, h2⟩)
      · exact Or.inl h
      · exact Or.inr ⟨f, List.mem_cons_self _ _, h⟩
      · exact Or.inr ⟨f1, List.mem_cons_of_mem _ h1, h2⟩
    · rintro (h | ⟨f1, h1, h2⟩)
      · exact Or.inl (Or.inl h)
      · rcases List.mem_cons.mp h1 with rfl | h1
        · exact Or.inl (Or.inr h2)
        · exact Or.inr ⟨f1, h1, h2⟩

theorem mem_distinctFound {tasks : String → TaskRun} {feeds : List String} {l : String} :
    l ∈ distinctFound tasks feeds ↔ ∃ f ∈ feeds, l ∈ taskFound tasks f := by
  unfold distinctFound
  rw [mem_distinctFound_go]
  simp

theorem nodup_distinctFound (tasks : String → TaskRun) (feeds : List String) :
    (distinctFound tasks feeds).Nodup := by
  unfold distinctFound
  generalize h : (List.nil : List String) = acc
  have hacc : acc.Nodup := by rw [← h]; exact List.nodup_nil
  clear h
  induction feeds generalizing acc with
  | nil => simpa
  | cons f t ih => exact ih _ (nodup_addAllFrom hacc _)

theorem runCycle_allLinksFile (tasks : String → TaskRun) (jv : Nat → ℚ)
    (feeds : List String) (st : CrawlerState) (now : DateTime) :
    (runCycle tasks jv feeds st now).allLinksFile =
      (if cycleNewLinks tasks jv feeds st = [] then st.allLinksFile
       else st.allLinksFile ++ cycleNewLinks tasks jv feeds st) := by
  unfold runCycle cycleNewLinks saveLinks
  by_cases ha : (mergeResults tasks jv st.crawledLinks feeds st.failedFeeds).1 = [] <;>
    by_cases hb : (mergeResults tasks jv st.crawledLinks feeds st.failedFeeds).2 = [] <;>
      simp [ha, hb]

/-- Under an all-attempts-fail oracle, how the default three-attempt loop
ends depends only on the kind of the final attempt's failure. -/
theorem crawlEnd_allfail {attempts : Nat → AttemptResult}
    (hfail : ∀ i < 3, (attempts i).isFail = true) :
    crawlEnd attempts 3 0 3 =
      (match attempts 2 with
       | .exc _ => .lastExc
       | _ => .lastBozo) := by
  have h0f := hfail 0 (by norm_num)
  have h1f := hfail 1 (by norm_num)
  have h2f := hfail 2 (by norm_num)
  cases h0 : attempts 0 <;> cases h1 : attempts 1 <;> cases h2 : attempts 2 <;>
    first
      | (rw [h0] at h0f; simp [AttemptResult.isFail] at h0f; done)
      | (rw [h1] at h1f; simp [AttemptResult.isFail] at h1f; done)
      | (rw [h2] at h2f; simp [AttemptResult.isFail] at h2f; done)
      | simp [crawlEnd, h0, h1, h2]

/-- C1, counterexample: a feed whose three attempts all fail with structural
parse (bozo) failures returns an empty link set but is NOT recorded in the
failed-source set — refuting "regardless of whether the failures were
transport exceptions or structural parse failures". -/
theorem c1_allfail_counterexample :
    (∀ i < 3, ((fun _ => AttemptResult.bozo "not well-formed xml") i).isFail = true) ∧
    (crawlSingleFeed (fun _ => .bozo "not well-formed xml") (fun _ => 2) [] []
      "http://feed.example/rss" 3).1 = [] ∧
    "http://feed.example/rss" ∉
      (crawlSingleFeed (fun _ => .bozo "not well-formed xml") (fun _ => 2) [] []
        "http://feed.example/rss" 3).2.1 :=
  ⟨by decide, by decide, by decide⟩

/-- C1 (amended): a fetch whose attempts (default 3) all fail returns an empty
link set; the source joins the failed-source set exactly when the final
attempt's failure is a transport exception — a structural parse failure on the
final attempt leaves the failed set unchanged; and whenever a cycle ends with
a non-empty failed set, the failure log gains exactly one new timestamped
section listing that set. -/
theorem c1_allfail_amended (attempts : Nat → AttemptResult) (jv : Nat → ℚ)
    (crawled failed : List String) (f : String)
    (hfail : ∀ i < 3, (attempts i).isFail = true) :
    (crawlSingleFeed attempts jv crawled failed f 3).1 = [] ∧
    (∀ m, attempts 2 = .exc m →
      (crawlSingleFeed attempts jv crawled failed f 3).2.1 = addUnique failed f ∧
      f ∈ (crawlSingleFeed attempts jv crawled failed f 3).2.1) ∧
    (∀ m, attempts 2 = .bozo m →
      (crawlSingleFeed attempts jv crawled failed f 3).2.1 = failed) ∧
    (∀ (tasks : String → TaskRun) (jv2 : Nat → ℚ) (feeds : List String)
        (st : CrawlerState) (now : DateTime),
      (mergeResults tasks jv2 st.crawledLinks feeds st.failedFeeds).2 ≠ [] →
      (runCycle tasks jv2 feeds st now).failedLog =
        st.failedLog ++
          [(now, (mergeResults tasks jv2 st.crawledLinks feeds st.failedFeeds).2)]) := by
  have hend := crawlEnd_allfail hfail
  have hspec := crawlGo_spec attempts jv crawled f 3 3 0 failed
  refine ⟨?_, ?_, ?_, ?_⟩
  · show (crawlGo attempts jv crawled f 3 0 3 failed).1 = []
    rw [hspec.1, hend]
    cases h2 : attempts 2 <;> simp
  · intro m hm
    constructor
    · show (crawlGo attempts jv crawled f 3 0 3 failed).2.1 = addUnique failed f
      rw [hspec.2, hend, hm]
    · show f ∈ (crawlGo attempts jv crawled f 3 0 3 failed).2.1
      rw [hspec.2, hend, hm]
      exact self_mem_addUnique failed f
  · intro m hm
    show (crawlGo attempts jv crawled f 3 0 3 failed).2.1 = failed
    rw [hspec.2, hend, hm]
  · intro tasks jv2 feeds st now hne
    rw [(runCycle_state tasks jv2 feeds st now).2.2, if_neg hne]

theorem c1_allfail_amended_witness :
    (∀ i < 3, ((fun _ => AttemptResult.exc "connection refused") i).isFail = true) ∧
    (crawlSingleFeed (fun _ => .exc "connection refused") (fun _ => 2) [] []
      "http://feed.example/rss" 3).1 = [] ∧
    "http://feed.example/rss" ∈
      (crawlSingleFeed (fun _ => .exc "connection refused") (fun _ => 2) [] []
        "http://feed.example/rss" 3).2.1 :=
  ⟨by decide,
    (c1_allfail_amended _ _ [] [] _ (by decide)).1,
    ((c1_allfail_amended _ _ [] [] _ (by decide)).2.1 "connection refused" rfl).2⟩

/-- C2: a link in the store is never re-emitted as new; the first cycle's
new-link count equals the number of distinct not-yet-stored links found; a
second cycle over identical feed content (same attempt outcomes, any jitter)
yields zero new links. -/
theorem c2_store_never_reemits (tasks : String → TaskRun) (jv jv2 : Nat → ℚ)
    (feeds : List String) (st : CrawlerState) (now : DateTime) :
    (∀ l ∈ st.crawledLinks, l ∉ cycleNewLinks tasks jv feeds st) ∧
    (cycleNewLinks tasks jv feeds st).length =
      ((distinctFound tasks feeds).filter
        (fun l => decide (l ∉ st.crawledLinks))).length ∧
    cycleNewLinks tasks jv2 feeds (runCycle tasks jv feeds st now) = [] := by
  refine ⟨?_, ?_, ?_⟩
  · intro l hl hmem
    unfold cycleNewLinks at hmem
    obtain ⟨f, _, _, hnot⟩ := mem_mergeResults_fst.mp hmem
    exact hnot hl
  · have hn1 : (cycleNewLinks tasks jv feeds st).Nodup :=
      nodup_mergeResults_fst _ _ _ _ _
    have hn2 : ((distinctFound tasks feeds).filter
        (fun l => decide (l ∉ st.crawledLinks))).Nodup :=
      (nodup_distinctFound tasks feeds).filter _
    refine ((List.perm_ext_iff_of_nodup hn1 hn2).mpr ?_).length_eq
    intro x
    unfold cycleNewLinks
    rw [mem_mergeResults_fst, List.mem_filter, mem_distinctFound]
    constructor
    · rintro ⟨f, hf, hfound, hnot⟩
      exact ⟨⟨f, hf, hfound⟩, by simpa using hnot⟩
    · rintro ⟨⟨f, hf, hfound⟩, hnot⟩
      exact ⟨f, hf, hfound, by simpa using hnot⟩
  · rw [List.eq_nil_iff_forall_not_mem]
    intro l hl
    unfold cycleNewLinks at hl
    obtain ⟨f, hf, hfound, hnot2⟩ := mem_mergeResults_fst.mp hl
    have hcr := (runCycle_state tasks jv feeds st now).1
    by_cases hc : l ∈ st.crawledLinks
    · apply hnot2
      rw [hcr]
      by_cases hz : cycleNewLinks tasks jv feeds st = []
      · rwa [if_pos hz]
      · rw [if_neg hz]
        exact mem_addAllFrom.mpr (Or.inl hc)
    · have hmem1 : l ∈ cycleNewLinks tasks jv feeds st := by
        unfold cycleNewLinks
        exact mem_mergeResults_fst.mpr ⟨f, hf, hfound, hc⟩
      apply hnot2
      rw [hcr, if_neg (List.ne_nil_of_mem hmem1)]
      exact mem_addAllFrom.mpr (Or.inr hmem1)

theorem c2_store_never_reemits_witness :
    "https://seen.example/s/1" ∈
      ({ crawledLinks := ["https://seen.example/s/1"], failedFeeds := [],
         allLinksFile := [], snapshots := [], failedLog := [] } :
        CrawlerState).crawledLinks ∧
    "https://seen.example/s/1" ∉
      cycleNewLinks (fun _ => TaskRun.completes (fun _ => .ok [])) (fun _ => 2)
        ["http://f1.example/rss"]
        { crawledLinks := ["https://seen.example/s/1"], failedFeeds := [],
          allLinksFile := [], snapshots := [], failedLog := [] } :=
  ⟨by decide,
    (c2_store_never_reemits (fun _ => TaskRun.completes (fun _ => .ok []))
      (fun _ => 2) (fun _ => 2) ["http://f1.example/rss"] _
      ⟨2026, 1, 2, 3, 4, 5⟩).1 "https://seen.example/s/1" (by decide)⟩

/-- C3, counterexample: with no feed sources at all, a cycle still reports the
previous cycle's failed source and logs it again — the failed set is carried
forward as live state, not recomputed from scratch. -/
theorem c3_cycle_scoped_counterexample :
    (runCycle (fun _ => TaskRun.raises "boom") (fun _ => 2) []
      { crawledLinks := [], failedFeeds := ["http://a.example/rss"],
        allLinksFile := [], snapshots := [], failedLog := [] }
      ⟨2026, 1, 2, 3, 4, 5⟩).failedFeeds = ["http://a.example/rss"] ∧
    (runCycle (fun _ => TaskRun.raises "boom") (fun _ => 2) []
      { crawledLinks := [], failedFeeds := ["http://a.example/rss"],
        allLinksFile := [], snapshots := [], failedLog := [] }
      ⟨2026, 1, 2, 3, 4, 5⟩).failedLog =
      [(⟨2026, 1, 2, 3, 4, 5⟩, ["http://a.example/rss"])] := by
  constructor <;> rfl

/-- C3 (amended): the failed-source set is live state carried across cycles
(never reset at cycle start): a cycle with no sources leaves it verbatim and
logs the whole carried set again; a source that succeeds is removed from the
set at the moment of that success. -/
theorem c3_failure_state_amended (attempts : Nat → AttemptResult) (jv : Nat → ℚ)
    (crawled failed : List String) (f : String) (es : List FeedEntry)
    (hnd : failed.Nodup) (hsucc : crawlEnd attempts 3 0 3 = .success es) :
    f ∉ (crawlSingleFeed attempts jv crawled failed f 3).2.1 ∧
    (∀ (tasks : String → TaskRun) (jv2 : Nat → ℚ) (st : CrawlerState)
        (now : DateTime),
      (runCycle tasks jv2 [] st now).failedFeeds = st.failedFeeds ∧
      (st.failedFeeds ≠ [] →
        (runCycle tasks jv2 [] st now).failedLog =
          st.failedLog ++ [(now, st.failedFeeds)])) := by
  constructor
  · show f ∉ (crawlGo attempts jv crawled f 3 0 3 failed).2.1
    rw [(crawlGo_spec attempts jv crawled f 3 3 0 failed).2, hsucc]
    unfold eraseIfMem
    by_cases hf : f ∈ failed
    · rw [if_pos hf]
      intro hmem
      exact (hnd.mem_erase_iff.mp hmem).1 rfl
    · rwa [if_neg hf]
  · intro tasks jv2 st now
    have hmerge : mergeResults tasks jv2 st.crawledLinks [] st.failedFeeds =
        ([], st.failedFeeds) := rfl
    constructor
    · rw [(runCycle_state tasks jv2 [] st now).2.1, hmerge]
    · intro hne
      rw [(runCycle_state tasks jv2 [] st now).2.2, hmerge]
      simp [hne]

theorem c3_failure_state_amended_witness :
    (["http://a.example/rss"] : List String).Nodup ∧
    crawlEnd (fun _ => AttemptResult.ok []) 3 0 3 = CrawlEnd.success [] ∧
    "http://a.example/rss" ∉
      (crawlSingleFeed (fun _ => .ok []) (fun _ => 2) [] ["http://a.example/rss"]
        "http://a.example/rss" 3).2.1 :=
  ⟨by decide, by decide,
    (c3_failure_state_amended (fun _ => .ok []) (fun _ => 2) [] _ _ []
      (by decide) (by decide)).1⟩

/-- C5: per feed fetch, the sleeps emitted follow the schedule: a random
jittered 1–3 unit sleep before each attempt; after failed attempt N
(1-indexed) and before attempt N+1, a backoff of base 2 times N, with no
backoff after the final attempt; a remote-closed failure message forces an
extra fixed 5-unit cool-down on top of the normal backoff. -/
theorem c5_delay_schedule (attempts : Nat → AttemptResult) (jv : Nat → ℚ)
    (crawled failed : List String) (f : String) (retryCount : Nat)
    (hj : ∀ i, 1 ≤ jv i ∧ jv i ≤ 3) :
    (crawlSingleFeed attempts jv crawled failed f retryCount).2.2 =
      specSchedule attempts jv retryCount 0 retryCount ∧
    (∀ d, Sleep.jitter d ∈ (crawlSingleFeed attempts jv crawled failed f retryCount).2.2 →
      1 ≤ d ∧ d ≤ 3) ∧
    (∀ n, Sleep.backoff n ∈ (crawlSingleFeed attempts jv crawled failed f retryCount).2.2 →
      1 ≤ n ∧ n < retryCount) ∧
    Sleep.duration Sleep.cool = 5 ∧
    (∀ n, Sleep.duration (Sleep.backoff n) = 2 * n) := by
  have htr : (crawlSingleFeed attempts jv crawled failed f retryCount).2.2 =
      specSchedule attempts jv retryCount 0 retryCount :=
    crawlGo_trace attempts jv crawled f retryCount retryCount 0 failed
  refine ⟨htr, ?_, ?_, rfl, fun n => rfl⟩
  · intro d hd
    rw [htr] at hd
    obtain ⟨i, rfl⟩ := specSchedule_jitter attempts jv retryCount retryCount 0 d hd
    exact hj i
  · intro n hn
    rw [htr] at hn
    exact specSchedule_backoff attempts jv retryCount retryCount 0 n hn

theorem c5_delay_schedule_witness :
    (∀ i : Nat, 1 ≤ ((fun _ => (2 : ℚ)) i) ∧ ((fun _ => (2 : ℚ)) i) ≤ 3) ∧
    (crawlSingleFeed (fun _ => .exc remoteClosedSig) (fun _ => (2 : ℚ)) [] []
      "http://feed.example/rss" 3).2.2 =
      specSchedule (fun _ => .exc remoteClosedSig) (fun _ => (2 : ℚ)) 3 0 3 :=
  ⟨fun _ => ⟨by norm_num, by norm_num⟩,
    (c5_delay_schedule (fun _ => .exc remoteClosedSig) (fun _ => (2 : ℚ)) [] []
      "http://feed.example/rss" 3 (fun _ => ⟨by norm_num, by norm_num⟩)).1⟩

/-- C6: on the input `share: https://pan.baidu.com/s/1abcXYZ more text` the
extraction engine returns exactly the single link
`https://pan.baidu.com/s/1abcXYZ` (across the `/s/` pass, the full catalog
pass, the domain-fallback pass and the protocol pass). -/
theorem c6_extract_exact :
    extractLinks "share: https://pan.baidu.com/s/1abcXYZ more text".data =
      ["https://pan.baidu.com/s/1abcXYZ"] := by
  decide

/-- C7: for every text input the extraction engine returns (totally, as a
Lean function) a set without duplicates, every member of which belongs to the
language of one of the defined link grammars. -/
theorem c7_extract_safety (content : List Char) :
    (extractLinks content).Nodup ∧
    ∀ l ∈ extractLinks content, ∃ r ∈ allGrammars, Matches r l.data :=
  goodAcc_extractLinks content

theorem c7_extract_safety_witness :
    "https://pan.baidu.com/s/1abcXYZ" ∈
      extractLinks "share: https://pan.baidu.com/s/1abcXYZ more text".data ∧
    ∃ r ∈ allGrammars,
      Matches r ("https://pan.baidu.com/s/1abcXYZ" : String).data :=
  ⟨by decide,
    (c7_extract_safety "share: https://pan.baidu.com/s/1abcXYZ more text".data).2
      "https://pan.baidu.com/s/1abcXYZ" (by decide)⟩

/-- C8, counterexample: with an unreadable record in the middle of the store,
the records after it are NOT loaded (the whole read loop sits inside one
`try`), refuting "the remaining records are still loaded". -/
theorem c8_load_counterexample :
    "https://x.example/a" ∈
      loadExistingLinks (some
        [.line "https://x.example/a", .unreadable, .line "https://x.example/b"]) ∧
    "https://x.example/b" ∉
      loadExistingLinks (some
        [.line "https://x.example/a", .unreadable, .line "https://x.example/b"]) := by
  exact ⟨by decide, by decide⟩

/-- C8 (amended): initialization tolerates an absent or empty store (zero
links, no error); an unreadable record does not fail the process, but it ends
the load: records before the first unreadable record are loaded, and the
unreadable record and everything after it are skipped. -/
theorem c8_load_amended :
    loadExistingLinks none = [] ∧
    loadExistingLinks (some []) = [] ∧
    ∀ (pre : List String) (rest : List LineRead),
      loadExistingLinks (some (pre.map .line ++ .unreadable :: rest)) =
        loadExistingLinks (some (pre.map .line)) := by
  refine ⟨rfl, rfl, ?_⟩
  intro pre rest
  unfold loadExistingLinks
  exact loadLoop_stops_at_unreadable rest pre []

theorem c8_load_amended_witness :
    loadExistingLinks (some
        (["https://x.example/a"].map .line ++
          .unreadable :: [.line "https://x.example/b"])) =
      loadExistingLinks (some (["https://x.example/a"].map .line)) :=
  c8_load_amended.2.2 ["https://x.example/a"] [.line "https://x.example/b"]

/-- C9: the merge loop converts a raising task into a failure record for that
source alone; every sibling's links are merged exactly (membership in the
cycle set is equivalent to being found by some feed's task and unseen); and
the cycle still reaches the persistence step. -/
theorem c9_scheduler_isolation (tasks : String → TaskRun) (jv : Nat → ℚ)
    (feeds : List String) (st : CrawlerState) (now : DateTime) :
    (∀ f ∈ feeds, ∀ m, tasks f = .raises m →
      f ∈ (runCycle tasks jv feeds st now).failedFeeds) ∧
    (∀ l, l ∈ cycleNewLinks tasks jv feeds st ↔
      ∃ f ∈ feeds, l ∈ taskFound tasks f ∧ l ∉ st.crawledLinks) ∧
    (runCycle tasks jv feeds st now).allLinksFile =
      (if cycleNewLinks tasks jv feeds st = [] then st.allLinksFile
       else st.allLinksFile ++ cycleNewLinks tasks jv feeds st) := by
  refine ⟨?_, ?_, runCycle_allLinksFile tasks jv feeds st now⟩
  · intro f hf m hm
    rw [(runCycle_state tasks jv feeds st now).2.1]
    exact mergeResults_mem_failed hm hf
  · intro l
    unfold cycleNewLinks
    exact mem_mergeResults_fst

theorem c9_scheduler_isolation_witness :
    "http://bad.example/rss" ∈
      (runCycle
        (fun f => if f = "http://bad.example/rss" then TaskRun.raises "boom"
                  else TaskRun.completes (fun _ => .ok []))
        (fun _ => 2)
        ["http://f1.example/rss", "http://f2.example/rss", "http://bad.example/rss",
         "http://f4.example/rss", "http://f5.example/rss"]
        ⟨[], [], [], [], []⟩ ⟨2026, 1, 2, 3, 4, 5⟩).failedFeeds :=
  (c9_scheduler_isolation _ _ _ _ _).1 "http://bad.example/rss" (by decide)
    "boom" rfl

/-- C10: the snapshot file name has only minute resolution and the snapshot is
written truncating, so two non-empty cycles in the same calendar minute leave
only the later snapshot; the master link file receives both cycles' links
appended, and the failure log is untouched by saving. -/
theorem c10_snapshot_overwrite (st : CrawlerState) (l1 l2 : List String)
    (t1 t2 : DateTime) (h1 : l1 ≠ []) (h2 : l2 ≠ [])
    (hsnap : st.snapshots = [])
    (hmo : t1.month = t2.month) (hda : t1.day = t2.day) (hho : t1.hour = t2.hour)
    (hmi : t1.minute = t2.minute) :
    timestampFilename t1 = timestampFilename t2 ∧
    (saveLinks (saveLinks st l1 t1) l2 t2).snapshots =
      [(timestampFilename t2, snapshotContent t2 l2)] ∧
    (saveLinks (saveLinks st l1 t1) l2 t2).allLinksFile =
      st.allLinksFile ++ l1 ++ l2 ∧
    (saveLinks (saveLinks st l1 t1) l2 t2).failedLog = st.failedLog := by
  have hname : timestampFilename t1 = timestampFilename t2 := by
    unfold timestampFilename
    rw [hmo, hda, hho, hmi]
  refine ⟨hname, ?_, ?_, ?_⟩
  · unfold saveLinks
    simp only [if_neg h1, if_neg h2]
    rw [hsnap]
    unfold setFile
    simp [hname]
  · unfold saveLinks
    simp only [if_neg h1, if_neg h2]
  · unfold saveLinks
    simp only [if_neg h1, if_neg h2]

theorem c10_snapshot_overwrite_witness :
    ((["https://a.example/s/1"] : List String) ≠ [] ∧
     (["https://b.example/s/2"] : List String) ≠ []) ∧
    (saveLinks (saveLinks ⟨[], [], [], [], []⟩ ["https://a.example/s/1"]
        ⟨2026, 9, 3, 1, 10, 5⟩) ["https://b.example/s/2"]
        ⟨2026, 9, 3, 1, 10, 59⟩).snapshots =
      [(timestampFilename ⟨2026, 9, 3, 1, 10, 59⟩,
        snapshotContent ⟨2026, 9, 3, 1, 10, 59⟩ ["https://b.example/s/2"])] :=
  ⟨⟨by decide, by decide⟩,
    (c10_snapshot_overwrite ⟨[], [], [], [], []⟩ _ _ ⟨2026, 9, 3, 1, 10, 5⟩
      ⟨2026, 9, 3, 1, 10, 59⟩ (by decide) (by decide) rfl rfl rfl rfl rfl).2.1⟩

end RssCrawler
